import Mathlib

/-!
# A verification model of `networkteam/slogutils`

This file is a shallow embedding, in Lean 4, of the CLI formatting handler
(`cli_handler.go`), its quoting helpers (modelled after the parts of Go's
`strconv` package that the handler calls), and the record-buffering handler
(package `buffering`) of the `networkteam/slogutils` repository, together
with theorems settling the specification claims about them.

Strings are modelled as lists of runes (`List Char`); a Lean `Char` is a
Unicode scalar value, exactly the runes obtained by ranging over a Go string
(invalid UTF-8 never reaches the rune level in the modelled code paths).
The Go standard-library classification functions `unicode.IsSpace` and
`strconv.IsPrint` are external collaborators of the repository; they are
kept abstract as a `Unicode` bundle of predicates, so every theorem holds
for the real tables, and concrete evaluations instantiate the bundle with
an ASCII fragment that agrees with the real tables on the ASCII range.
-/

namespace Slogutils

/-- Go strings at the rune level. -/
abbrev Str := List Char

/-- Abstract interface for the Go standard-library character classes used by
the handler: `unicode.IsSpace` (via `needsQuoting`) and the printability
predicate used both by `needsQuoting` (`unicode.IsPrint`) and by
`strconv.Quote` (`strconv.IsPrint`; documented to give the same results). -/
structure Unicode where
  isSpace : Char → Bool
  isPrint : Char → Bool

/-- ASCII instance of the character classes, agreeing with Go's
`unicode.IsSpace`/`IsPrint` on the ASCII range; used to evaluate the model
on concrete ASCII inputs. -/
def asciiUnicode : Unicode where
  isSpace c := c == ' ' || c == '\t' || c == '\n' || c == '\x0b' || c == '\x0c' || c == '\r'
  isPrint c := decide (0x20 ≤ c.toNat ∧ c.toNat ≤ 0x7e)

/-- Models `needsQuoting` (cli_handler.go): a string needs quoting iff it is
empty or contains a whitespace rune, a double quote, an equals sign, or a
non-printable rune. The source's early-`return` loop is the list `any`. -/
def needsQuoting (uc : Unicode) (s : Str) : Bool :=
  if s.isEmpty then true
  else s.any fun r => uc.isSpace r || r == '"' || r == '=' || !uc.isPrint r

/-- The sixteen lowercase hex digits (`strconv`'s `lowerhex` table). -/
def lowerHexDigit (n : Nat) : Char :=
  match n with
  | 0 => '0' | 1 => '1' | 2 => '2' | 3 => '3' | 4 => '4'
  | 5 => '5' | 6 => '6' | 7 => '7' | 8 => '8' | 9 => '9'
  | 10 => 'a' | 11 => 'b' | 12 => 'c' | 13 => 'd' | 14 => 'e'
  | _ => 'f'

/-- Big-endian fixed-width hex rendering: `hexDigits k v` is the low
`4*k` bits of `v` as `k` lowercase hex digits (the `for s := ...; s -= 4`
loops in `strconv.appendEscapedRune`). -/
def hexDigits : Nat → Nat → Str
  | 0, _ => []
  | k + 1, v => lowerHexDigit (v / 16 ^ k % 16) :: hexDigits k v

/-- The `switch r` table of named escapes in `strconv.appendEscapedRune`:
the escape letter for the seven runes with single-letter escapes. -/
def escapeSpecial (r : Char) : Option Char :=
  if r = '\x07' then some 'a'
  else if r = '\x08' then some 'b'
  else if r = '\x0c' then some 'f'
  else if r = '\n' then some 'n'
  else if r = '\r' then some 'r'
  else if r = '\t' then some 't'
  else if r = '\x0b' then some 'v'
  else none

/-- The non-printable-rune fallback of `strconv.appendEscapedRune`: the
named-escape switch, then fixed-width hex escapes by code-point range. -/
def escapeNonPrint (r : Char) : Str :=
  match escapeSpecial r with
  | some e => ['\\', e]
  | none =>
    if r.toNat < 0x20 ∨ r.toNat = 0x7f then '\\' :: 'x' :: hexDigits 2 r.toNat
    else if r.toNat < 0x10000 then '\\' :: 'u' :: hexDigits 4 r.toNat
    else '\\' :: 'U' :: hexDigits 8 r.toNat

/-- Models `strconv.appendEscapedRune` with quote char `"`, `ASCIIonly` and
`graphicOnly` false, as called by `strconv.Quote`. The branch for invalid
runes is dead here since every `Char` is a valid rune. -/
def escapeRune (uc : Unicode) (r : Char) : Str :=
  if r = '"' ∨ r = '\\' then ['\\', r]
  else if uc.isPrint r then [r]
  else escapeNonPrint r

/-- Models `strconv.Quote`: a double quote, each rune escaped, a double
quote. -/
def strconvQuote (uc : Unicode) (s : Str) : Str :=
  '"' :: ((s.map (escapeRune uc)).flatten ++ ['"'])

/-- Hex digit value (`strconv`'s `unhex`); accepts both cases. -/
def hexVal (c : Char) : Option Nat :=
  if c = '0' then some 0 else if c = '1' then some 1
  else if c = '2' then some 2 else if c = '3' then some 3
  else if c = '4' then some 4 else if c = '5' then some 5
  else if c = '6' then some 6 else if c = '7' then some 7
  else if c = '8' then some 8 else if c = '9' then some 9
  else if c = 'a' ∨ c = 'A' then some 10
  else if c = 'b' ∨ c = 'B' then some 11
  else if c = 'c' ∨ c = 'C' then some 12
  else if c = 'd' ∨ c = 'D' then some 13
  else if c = 'e' ∨ c = 'E' then some 14
  else if c = 'f' ∨ c = 'F' then some 15
  else none

/-- Octal digit value, for `strconv`'s `\NNN` escapes. -/
def octVal (c : Char) : Option Nat :=
  if c = '0' then some 0 else if c = '1' then some 1
  else if c = '2' then some 2 else if c = '3' then some 3
  else if c = '4' then some 4 else if c = '5' then some 5
  else if c = '6' then some 6 else if c = '7' then some 7
  else none

/-- A scalar value from a code-point number, failing on surrogates and
out-of-range values (mirrors the validity filtering of `strconv`'s unquoting
path, where invalid values either error out or can never be produced). -/
def charOfNat? (v : Nat) : Option Char :=
  if Nat.isValidChar v then some (Char.ofNat v) else none

/-- The hex-digit loop of `strconv`'s `unquoteChar` (`for j := 0; j < n;
j++ { ... v = v<<4 | x }`): read `k` hex digits into an accumulator. -/
def readHex : Nat → Nat → Str → Option (Nat × Str)
  | 0, acc, l => some (acc, l)
  | k + 1, acc, l =>
    match l with
    | [] => none
    | c :: rest =>
      match hexVal c with
      | some d => readHex k (acc * 16 + d) rest
      | none => none

/-- A `\xHH` / `\uHHHH` / `\UHHHHHHHH` escape body of `strconv`'s
`unquoteChar`: `n` hex digits, then validity filtering of the value. -/
def unquoteHex (n : Nat) (rest : Str) : Option (Char × Str) :=
  match readHex n 0 rest with
  | some (v, rest') =>
    match charOfNat? v with
    | some ch => some (ch, rest')
    | none => none
  | none => none

/-- The `\NNN` octal escape of `strconv`'s `unquoteChar`; `d1` is the value
of the first octal digit, already consumed. -/
def unquoteOct (d1 : Nat) (rest : Str) : Option (Char × Str) :=
  match rest with
  | o2 :: o3 :: rest' =>
    match octVal o2, octVal o3 with
    | some d2, some d3 =>
      match charOfNat? (d1 * 64 + d2 * 8 + d3) with
      | some ch => some (ch, rest')
      | none => none
    | _, _ => none
  | _ => none

/-- The single-letter escapes of `strconv`'s `unquoteChar`: the decoded
rune for escape letters `a b f n r t v \\ "`. -/
def escCode (e : Char) : Option Char :=
  if e = 'a' then some '\x07'
  else if e = 'b' then some '\x08'
  else if e = 'f' then some '\x0c'
  else if e = 'n' then some '\n'
  else if e = 'r' then some '\r'
  else if e = 't' then some '\t'
  else if e = 'v' then some '\x0b'
  else if e = '\\' then some '\\'
  else if e = '"' then some '"'
  else none

/-- One escape sequence of `strconv`'s `unquoteChar` (quote char `"`):
given the escape rune `e` after the backslash and the input after it,
returns the decoded rune and the remaining input. -/
def unquoteEscOne (e : Char) (rest : Str) : Option (Char × Str) :=
  match escCode e with
  | some c => some (c, rest)
  | none =>
    if e = 'x' then unquoteHex 2 rest
    else if e = 'u' then unquoteHex 4 rest
    else if e = 'U' then unquoteHex 8 rest
    else
      match octVal e with
      | some d1 => unquoteOct d1 rest
      | none => none

/-- One rune of the body of a double-quoted string (`strconv.UnquoteChar`
with quote char `"`): an unescaped quote is not a rune of the body, a
backslash starts an escape, anything else stands for itself. -/
def unquoteOne (c : Char) (rest : Str) : Option (Char × Str) :=
  if c = '"' then none
  else if c = '\\' then
    match rest with
    | [] => none
    | e :: rest' => unquoteEscOne e rest'
  else some (c, rest)

theorem readHex_length {k acc : Nat} {l : Str} {v : Nat} {rest' : Str}
    (h : readHex k acc l = some (v, rest')) : rest'.length ≤ l.length := by
  induction k generalizing acc l with
  | zero =>
    simp only [readHex, Option.some.injEq, Prod.mk.injEq] at h
    obtain ⟨-, rfl⟩ := h
    exact Nat.le_refl _
  | succ k ih =>
    unfold readHex at h
    repeat' split at h
    all_goals
      first
        | exact Nat.le_trans (ih h) (by simp)
        | simp at h

theorem unquoteHex_length {n : Nat} {l : Str} {ch : Char} {rest' : Str}
    (h : unquoteHex n l = some (ch, rest')) : rest'.length ≤ l.length := by
  unfold unquoteHex at h
  cases hr : readHex n 0 l with
  | none => simp [hr] at h
  | some p =>
    obtain ⟨v, rest''⟩ := p
    simp only [hr] at h
    cases hc : charOfNat? v with
    | none => simp [hc] at h
    | some ch' =>
      simp only [hc, Option.some.injEq, Prod.mk.injEq] at h
      obtain ⟨-, rfl⟩ := h
      exact readHex_length hr

theorem unquoteOct_length {d1 : Nat} {l : Str} {ch : Char} {rest' : Str}
    (h : unquoteOct d1 l = some (ch, rest')) : rest'.length ≤ l.length := by
  unfold unquoteOct at h
  repeat' split at h
  all_goals
    first
      | (simp only [Option.some.injEq, Prod.mk.injEq] at h
         obtain ⟨-, rfl⟩ := h
         simp +arith [List.length])
      | simp at h

theorem unquoteEscOne_length {e : Char} {l : Str} {ch : Char} {rest' : Str}
    (h : unquoteEscOne e l = some (ch, rest')) : rest'.length ≤ l.length := by
  unfold unquoteEscOne at h
  repeat' split at h
  all_goals
    first
      | (simp only [Option.some.injEq, Prod.mk.injEq] at h
         obtain ⟨-, rfl⟩ := h
         exact Nat.le_refl _)
      | exact unquoteHex_length h
      | exact unquoteOct_length h
      | simp at h

theorem escCode_escapeSpecial {r e : Char} (h : escapeSpecial r = some e) :
    escCode e = some r := by
  unfold escapeSpecial at h
  split_ifs at h <;>
    (injection h with h
     subst h
     rename_i hr
     subst hr
     rfl)

theorem unquoteOne_length {c : Char} {rest : Str} {ch : Char} {rest' : Str}
    (h : unquoteOne c rest = some (ch, rest')) : rest'.length ≤ rest.length := by
  unfold unquoteOne at h
  repeat' split at h
  all_goals
    first
      | (simp only [Option.some.injEq, Prod.mk.injEq] at h
         obtain ⟨-, rfl⟩ := h
         exact Nat.le_refl _)
      | exact Nat.le_trans (unquoteEscOne_length h) (by simp)
      | simp at h

/-- Body of the model of `strconv.Unquote`, restricted to double-quoted
strings (the only form `strconv.Quote` produces): consume runes until the
closing quote, which must end the input. -/
def unquoteBody (l : Str) : Option Str :=
  match l with
  | [] => none
  | c :: rest =>
    if c = '"' then (if rest = [] then some [] else none)
    else
      match h : unquoteOne c rest with
      | some (ch, rest') => (unquoteBody rest').map fun t => ch :: t
      | none => none
termination_by l.length
decreasing_by simp +arith [Nat.lt_succ_of_le (unquoteOne_length h)]

theorem hexVal_lowerHexDigit {d : Nat} (h : d < 16) :
    hexVal (lowerHexDigit d) = some d := by
  interval_cases d <;> rfl

theorem readHex_hexDigits (k : Nat) (acc v : Nat) (t : Str) :
    readHex k acc (hexDigits k v ++ t) = some (acc * 16 ^ k + v % 16 ^ k, t) := by
  induction k generalizing acc v with
  | zero => simp [readHex, hexDigits, Nat.mod_one]
  | succ k ih =>
    have hd : v / 16 ^ k % 16 < 16 := Nat.mod_lt _ (by norm_num)
    simp only [hexDigits, List.cons_append, readHex, hexVal_lowerHexDigit hd]
    rw [ih]
    congr 2
    have h16 : (16 : Nat) ^ (k + 1) = 16 ^ k * 16 := by ring
    have hmod : v % (16 ^ k * 16) = v % 16 ^ k + 16 ^ k * (v / 16 ^ k % 16) :=
      Nat.mod_mul ..
    rw [h16, hmod]
    ring

theorem charValid (r : Char) : Nat.isValidChar r.toNat := r.valid

theorem charOfNat?_toNat (r : Char) : charOfNat? r.toNat = some r := by
  rw [charOfNat?, if_pos (charValid r), Char.ofNat_toNat]

theorem unquoteHex_hexDigits {k : Nat} {r : Char} (t : Str) (hv : r.toNat < 16 ^ k) :
    unquoteHex k (hexDigits k r.toNat ++ t) = some (r, t) := by
  unfold unquoteHex
  rw [readHex_hexDigits]
  simp only [Nat.zero_mul, Nat.zero_add, Nat.mod_eq_of_lt hv, charOfNat?_toNat]

theorem unquoteBody_cons {c : Char} {rest : Str} {r : Char} {t : Str}
    (hc : ¬ c = '"') (hu : unquoteOne c rest = some (r, t)) :
    unquoteBody (c :: rest) = (unquoteBody t).map fun l => r :: l := by
  rw [unquoteBody.eq_def]
  simp only []
  rw [if_neg hc]
  split
  · rename_i ch rest' heq
    rw [hu] at heq
    injection heq with heq
    injection heq with h1 h2
    rw [h1, h2]
  · rename_i heq
    rw [hu] at heq
    cases heq

theorem unquoteOne_escapeNonPrint (r : Char) (t : Str) :
    ∃ c rest, escapeNonPrint r ++ t = c :: rest ∧ ¬ c = '"' ∧
      unquoteOne c rest = some (r, t) := by
  unfold escapeNonPrint
  cases hs : escapeSpecial r with
  | some e =>
    refine ⟨'\\', e :: t, rfl, by decide, ?_⟩
    unfold unquoteOne
    rw [if_neg (by decide), if_pos rfl]
    show unquoteEscOne e t = some (r, t)
    unfold unquoteEscOne
    rw [escCode_escapeSpecial hs]
  | none =>
    split_ifs with hx hu16
    · have hv : r.toNat < 16 ^ 2 := by rcases hx with h | h <;> omega
      refine ⟨'\\', 'x' :: (hexDigits 2 r.toNat ++ t), by simp, by decide, ?_⟩
      unfold unquoteOne
      rw [if_neg (by decide), if_pos rfl]
      show unquoteEscOne 'x' (hexDigits 2 r.toNat ++ t) = some (r, t)
      unfold unquoteEscOne
      show unquoteHex 2 (hexDigits 2 r.toNat ++ t) = some (r, t)
      exact unquoteHex_hexDigits t hv
    · have hv : r.toNat < 16 ^ 4 := by omega
      refine ⟨'\\', 'u' :: (hexDigits 4 r.toNat ++ t), by simp, by decide, ?_⟩
      unfold unquoteOne
      rw [if_neg (by decide), if_pos rfl]
      show unquoteEscOne 'u' (hexDigits 4 r.toNat ++ t) = some (r, t)
      unfold unquoteEscOne
      show unquoteHex 4 (hexDigits 4 r.toNat ++ t) = some (r, t)
      exact unquoteHex_hexDigits t hv
    · have hval : Nat.isValidChar r.toNat := charValid r
      have hv : r.toNat < 16 ^ 8 := by
        rcases hval with h | ⟨-, h⟩ <;> omega
      refine ⟨'\\', 'U' :: (hexDigits 8 r.toNat ++ t), by simp, by decide, ?_⟩
      unfold unquoteOne
      rw [if_neg (by decide), if_pos rfl]
      show unquoteEscOne 'U' (hexDigits 8 r.toNat ++ t) = some (r, t)
      unfold unquoteEscOne
      show unquoteHex 8 (hexDigits 8 r.toNat ++ t) = some (r, t)
      exact unquoteHex_hexDigits t hv

theorem unquoteOne_escapeRune (uc : Unicode) (r : Char) (t : Str) :
    ∃ c rest, escapeRune uc r ++ t = c :: rest ∧ ¬ c = '"' ∧
      unquoteOne c rest = some (r, t) := by
  unfold escapeRune
  split_ifs with h1 h2
  · rcases h1 with rfl | rfl
    · exact ⟨'\\', '"' :: t, rfl, by decide, rfl⟩
    · exact ⟨'\\', '\\' :: t, rfl, by decide, rfl⟩
  · push_neg at h1
    refine ⟨r, t, rfl, h1.1, ?_⟩
    unfold unquoteOne
    rw [if_neg h1.1, if_neg h1.2]
  · exact unquoteOne_escapeNonPrint r t

theorem unquoteBody_escapeRune (uc : Unicode) (r : Char) (t : Str) :
    unquoteBody (escapeRune uc r ++ t) = (unquoteBody t).map fun l => r :: l := by
  obtain ⟨c, rest, heq, hc, hu⟩ := unquoteOne_escapeRune uc r t
  rw [heq]
  exact unquoteBody_cons hc hu

theorem unquoteBody_escaped (uc : Unicode) (s : Str) :
    unquoteBody ((s.map (escapeRune uc)).flatten ++ ['"']) = some s := by
  induction s with
  | nil => simp [unquoteBody]
  | cons c cs ih =>
    simp only [List.map_cons, List.flatten_cons, List.append_assoc]
    rw [unquoteBody_escapeRune, ih]
    rfl

/-- Models `strconv.Unquote` restricted to double-quoted input, the only
form produced by `strconv.Quote`. -/
def strconvUnquote (s : Str) : Option Str :=
  match s with
  | '"' :: rest => unquoteBody rest
  | _ => none

theorem strconvUnquote_strconvQuote (uc : Unicode) (s : Str) :
    strconvUnquote (strconvQuote uc s) = some s := by
  have h : strconvUnquote (strconvQuote uc s)
      = unquoteBody ((s.map (escapeRune uc)).flatten ++ ['"']) := rfl
  rw [h, unquoteBody_escaped]

/-- Models `appendString` (cli_handler.go): quote the string with
`strconv.Quote` when `quote` is set and the string needs quoting, else
write it verbatim. The model returns the bytes written. -/
def appendString (uc : Unicode) (s : Str) (quote : Bool) : Str :=
  if quote && needsQuoting uc s then strconvQuote uc s else s

/-! ## The slog data model (values, attributes, records) -/

mutual
/-- A resolved `slog.Value`, tagged by kind. Numeric kinds carry their Go
value; float, duration, time, and opaque ("any") values are modelled by the
text their Go rendering produces (`strconv.FormatFloat`, `String()`,
`MarshalText`/`fmt.Sprint`), since only that text reaches the handler. A
`vany none` is a nil `any` value — in particular the zero `slog.Value`. -/
inductive Value : Type where
  | vstr : Str → Value
  | vint64 : Int → Value
  | vuint64 : Nat → Value
  | vfloat64 : Str → Value
  | vbool : Bool → Value
  | vduration : Str → Value
  | vtime : Str → Value
  | vany : Option Str → Value
  | vgroup : List Attr → Value

/-- A `slog.Attr`: key and value. -/
inductive Attr : Type where
  | mk : Str → Value → Attr
end

/-- The key of an attribute. -/
def Attr.key : Attr → Str
  | .mk k _ => k

/-- The value of an attribute. -/
def Attr.value : Attr → Value
  | .mk _ v => v

/-- `fmt.Sprint(nil)`. -/
def goNil : Str := "<nil>".toList

/-- `strconv.FormatInt(i, 10)`. -/
def formatInt (i : Int) : Str :=
  if i < 0 then '-' :: Nat.toDigits 10 (-i).toNat else Nat.toDigits 10 i.toNat

/-- `strconv.FormatBool`. -/
def formatBool (b : Bool) : Str :=
  if b then "true".toList else "false".toList

mutual
/-- `slog.Value.String()`: the plain text of a value (no quoting). A group
prints as `fmt` does for a `[]Attr` slice: bracketed, space-separated
`key=value` items. -/
def Value.goString : Value → Str
  | .vstr s => s
  | .vint64 i => formatInt i
  | .vuint64 n => Nat.toDigits 10 n
  | .vfloat64 t => t
  | .vbool b => formatBool b
  | .vduration t => t
  | .vtime t => t
  | .vany none => goNil
  | .vany (some t) => t
  | .vgroup as => '[' :: (attrListText as ++ [']'])

/-- `fmt`'s space-separated element list for a `[]Attr` slice. -/
def attrListText : List Attr → Str
  | [] => []
  | [a] => attrText a
  | a :: as => attrText a ++ ' ' :: attrListText as

/-- `slog.Attr.String()`: `key=value`. -/
def attrText : Attr → Str
  | .mk k v => k ++ '=' :: Value.goString v
end

/-- `attr.Equal(slog.Attr{})`: the zero attribute has an empty key and the
zero value (a nil `any`). -/
def attrIsZero (a : Attr) : Bool :=
  a.key.isEmpty &&
    match a.value with
    | .vany none => true
    | _ => false

/-- Models `appendValue` (cli_handler.go): render a value by kind. String,
duration, time, and textual "any" values go through `appendString` with the
given quote flag; numbers and bools use their canonical decimal/boolean
text; a group-kind value has no case in the switch and renders nothing. -/
def appendValue (uc : Unicode) (v : Value) (quote : Bool) : Str :=
  match v with
  | .vstr s => appendString uc s quote
  | .vint64 i => formatInt i
  | .vuint64 n => Nat.toDigits 10 n
  | .vfloat64 t => t
  | .vbool b => formatBool b
  | .vduration t => appendString uc t quote
  | .vtime t => appendString uc t quote
  | .vany none => appendString uc goNil quote
  | .vany (some t) => appendString uc t quote
  | .vgroup _ => []

/-! ## The CLI handler -/

/-- A `*color.Color` as configured in the level-color maps; `noColor`
stands for the nil pointer a Go map lookup yields for a missing level.
The model renders plain text (as on a non-terminal sink, where the color
layer emits no ANSI sequences), so a color only identifies which entry the
handler selected. -/
inductive Color : Type where
  | faint
  | whiteFaint
  | blue
  | yellow
  | red
  | noColor
deriving DecidableEq

/-- `slogutils.LevelTrace` (slog.go): an extra level below debug. -/
def LevelTrace : Int := -8

/-- `slog.LevelDebug`. -/
def LevelDebug : Int := -4

/-- `slog.LevelInfo`. -/
def LevelInfo : Int := 0

/-- `slog.LevelWarn`. -/
def LevelWarn : Int := 4

/-- `slog.LevelError`. -/
def LevelError : Int := 8

/-- `cliDefaultLevelColors` (cli_handler.go), as a total lookup with the Go
map's nil fallback for missing levels. -/
def cliDefaultLevelColors (level : Int) : Color :=
  if level = LevelTrace then .faint
  else if level = LevelDebug then .whiteFaint
  else if level = LevelInfo then .blue
  else if level = LevelWarn then .yellow
  else if level = LevelError then .red
  else .noColor

/-- `cliDefaultPrefixPadding` (cli_handler.go). -/
def cliDefaultPrefixPadding : Int := 2

/-- `cliDefaultLevelPrefixes` (cli_handler.go), as a total lookup with the
Go map's `""` fallback for missing levels. -/
def cliDefaultLevelPrefixes (level : Int) : Str :=
  if level = LevelTrace then "-".toList
  else if level = LevelDebug then "◦".toList
  else if level = LevelInfo then "•".toList
  else if level = LevelWarn then "▲".toList
  else if level = LevelError then "✕".toList
  else []

/-- `cliDefaultMessagePadding` (cli_handler.go). -/
def cliDefaultMessagePadding : Int := 25

/-- A `ReplaceAttr` function: `func(groups []string, attr slog.Attr) slog.Attr`. -/
abbrev RepFn := List Str → Attr → Attr

/-- `PrefixOptions` (cli_handler.go). -/
structure PrefixOptions where
  padding : Int
  prefixes : Int → Str

/-- `CLIHandlerOptions` (cli_handler.go); `Option` fields model nil-able
Go fields (`Level slog.Leveler`, `Prefix *PrefixOptions`,
`LevelColors map[...]`, `ReplaceAttr func(...)`), a zero options value is
all defaults. The `Level` field is modelled by its constant level value. -/
structure CLIHandlerOptions where
  level : Option Int := none
  prefixOptions : Option PrefixOptions := none
  levelColors : Option (Int → Color) := none
  messagePadding : Int := 0
  replaceAttr : Option RepFn := none

/-- `groupOrAttrs` (cli_handler.go): a group name if non-empty, or a list
of attrs. -/
structure GroupOrAttrs where
  group : Str
  attrs : List Attr

/-- A `slog.Record` as far as the handler reads it: level, message, and the
attributes attached to the record (`r.Attrs` iterates them in order). The
record's time is never read by this handler and is not modelled. -/
structure Record where
  level : Int
  message : Str
  attrs : List Attr

/-- `CLIHandler` (cli_handler.go). The output writer `w` is modelled as an
explicit sink argument of `handleResult`, and the mutex `mu` (whole-line
serialization) is outside this sequential model. -/
structure CLIHandler where
  goas : List GroupOrAttrs
  level : Int
  prefixPadding : Int
  levelPrefixes : Int → Str
  levelColors : Int → Color
  replaceAttr : Option RepFn
  messagePadding : Int

/-- `NewCLIHandler` (cli_handler.go): apply defaults for omitted options.
The `colorable` wrapping of `*os.File` sinks only adapts the writer and is
not part of the formatting model. -/
def NewCLIHandler (opts? : Option CLIHandlerOptions) : CLIHandler :=
  let opts := opts?.getD {}
  let level := opts.level.getD LevelInfo
  let prefixOptions := opts.prefixOptions.getD ⟨cliDefaultPrefixPadding, cliDefaultLevelPrefixes⟩
  let levelColors := opts.levelColors.getD cliDefaultLevelColors
  let messagePadding : Int :=
    if opts.messagePadding = 0 then cliDefaultMessagePadding
    else if opts.messagePadding < 0 then 0
    else opts.messagePadding
  { goas := []
    level := level
    prefixPadding := prefixOptions.padding
    levelPrefixes := prefixOptions.prefixes
    levelColors := levelColors
    replaceAttr := opts.replaceAttr
    messagePadding := messagePadding }

/-- `CLIHandler.Enabled`: `level >= h.level.Level()`. -/
def CLIHandler.enabled (h : CLIHandler) (level : Int) : Bool :=
  decide (h.level ≤ level)

mutual
/-- Models `CLIHandler.appendAttr` (cli_handler.go): a zero attribute is
dropped; a group-kind value extends the prefix with `key + "."` and
recurses into its children (which are *not* passed through `ReplaceAttr`);
any other attribute renders a space, the prefixed key (quoted as needed,
wrapped in the level color, which emits no text here), `=`, and the value.
Values are modelled as already resolved (`attr.Value.Resolve()`). -/
def appendAttr (uc : Unicode) (attr : Attr) (groupsPrefix : Str) : Str :=
  if attrIsZero attr then []
  else
    match attr with
    | .mk k (.vgroup groupAttrs) => appendAttrList uc groupAttrs (groupsPrefix ++ k ++ ['.'])
    | .mk k v => ' ' :: (appendString uc (groupsPrefix ++ k) true ++ '=' :: appendValue uc v true)

/-- The children loop of `appendAttr`'s group case. -/
def appendAttrList (uc : Unicode) (attrs : List Attr) (groupsPrefix : Str) : Str :=
  match attrs with
  | [] => []
  | a :: rest => appendAttr uc a groupsPrefix ++ appendAttrList uc rest groupsPrefix
end

/-- The per-attribute `ReplaceAttr` call sites in `CLIHandler.Handle`:
`if h.replaceAttr != nil { a = h.replaceAttr(groups, a) }`. -/
def applyRep (rep : Option RepFn) (groups : List Str) (a : Attr) : Attr :=
  match rep with
  | none => a
  | some f => f groups a

/-- One batch of attributes as rendered by `CLIHandler.Handle`: each
attribute is passed through `ReplaceAttr` (with the groups opened so far)
and appended with the accumulated prefix. -/
def renderBatch (uc : Unicode) (rep : Option RepFn) (groups : List Str)
    (groupsPrefix : Str) (attrs : List Attr) : Str :=
  (attrs.map fun a => appendAttr uc (applyRep rep groups a) groupsPrefix).flatten

/-- The loop state of the `for _, goa := range goas` loop in
`CLIHandler.Handle`: the running `attrPrefix`, the `groups` list, and the
output accumulated so far. -/
structure GoasState where
  attrPrefix : Str
  groups : List Str
  out : Str

/-- One step of the `goas` loop: a group entry extends the prefix and the
group list, an attr entry renders its batch. -/
def goasStep (uc : Unicode) (rep : Option RepFn) (st : GoasState) (goa : GroupOrAttrs) :
    GoasState :=
  if !goa.group.isEmpty then
    { st with
        attrPrefix := st.attrPrefix ++ goa.group ++ ['.']
        groups := st.groups ++ [goa.group] }
  else
    { st with out := st.out ++ renderBatch uc rep st.groups st.attrPrefix goa.attrs }

/-- The whole `goas` loop of `CLIHandler.Handle`. -/
def renderGoas (uc : Unicode) (rep : Option RepFn) (goas : List GroupOrAttrs) : GoasState :=
  goas.foldl (goasStep uc rep) ⟨[], [], []⟩

/-- The trailing-group trimming in `CLIHandler.Handle`: when the record has
no attrs, remove group entries from the end of the list. -/
def dropTrailingGroups (goas : List GroupOrAttrs) : List GroupOrAttrs :=
  ((goas.reverse.dropWhile fun goa => !goa.group.isEmpty).reverse)

/-- `slog.MessageKey`. -/
def messageKey : Str := "msg".toList

/-- The message-replacement step of `CLIHandler.Handle`: the message is
offered to `ReplaceAttr` as a synthetic string attribute under
`slog.MessageKey` with a nil group path; an empty-key result suppresses the
message, otherwise the returned value's `String()` becomes the message. -/
def resolveMessage (rep : Option RepFn) (message : Str) : Str :=
  match rep with
  | none => message
  | some f =>
    let a := f [] (Attr.mk messageKey (Value.vstr message))
    if ¬ a.key.isEmpty then a.value.goString else []

/-- The level-color lookup on the first line of `CLIHandler.Handle`:
`levelColor := cliDefaultLevelColors[r.Level]` — the *default* map. -/
def CLIHandler.handleLevelColor (_h : CLIHandler) (r : Record) : Color :=
  cliDefaultLevelColors r.level

/-- The glyph lookup on the second line of `CLIHandler.Handle`:
`levelPrefix := h.levelPrefixes[r.Level]` — the handler's *configured* map. -/
def CLIHandler.handleLevelPrefix (h : CLIHandler) (r : Record) : Str :=
  h.levelPrefixes r.level

/-- `fmt`'s `%*s`: right-justify in `w` runes (a negative width
left-justifies). -/
def fmtRightAligned (w : Int) (s : Str) : Str :=
  if 0 ≤ w then List.replicate (w.toNat - s.length) ' ' ++ s
  else s ++ List.replicate ((-w).toNat - s.length) ' '

/-- `fmt`'s `%-Ns`: left-justify in `w` runes. -/
def fmtLeftAligned (w : Nat) (s : Str) : Str :=
  s ++ List.replicate (w - s.length) ' '

/-- Models the formatting in `CLIHandler.Handle` (cli_handler.go): the
level glyph right-aligned in `prefixPadding+1` columns (via the selected
level color, which emits no text on a non-terminal sink), a space, the
(possibly replaced) message left-justified to `messagePadding` columns, the
stored scope's attributes, the record's attributes, and a newline. When the
record carries no attrs, trailing group entries are dropped first. -/
def CLIHandler.handleLine (uc : Unicode) (h : CLIHandler) (r : Record) : Str :=
  let _levelColor := h.handleLevelColor r
  let levelPrefix := h.handleLevelPrefix r
  let msg := resolveMessage h.replaceAttr r.message
  let goas := if r.attrs.isEmpty then dropTrailingGroups h.goas else h.goas
  let st := renderGoas uc h.replaceAttr goas
  let recOut := renderBatch uc h.replaceAttr st.groups st.attrPrefix r.attrs
  fmtRightAligned (h.prefixPadding + 1) levelPrefix
    ++ ' ' :: fmtLeftAligned h.messagePadding.toNat msg
    ++ st.out ++ recOut ++ ['
']

/-- A Go `error` value, for modelling fallible writes and handlers. -/
abbrev GoError := Str

/-- `CLIHandler.Handle` as seen by the caller: the line written to the sink
and the returned error. The source writes with
`_, _ = buf.WriteTo(h.w)` — the write's error is assigned to the blank
identifier — and ends with `return nil`. -/
def CLIHandler.handleResult (uc : Unicode) (h : CLIHandler) (r : Record)
    (sink : Str → Option GoError) : Str × Option GoError :=
  let line := h.handleLine uc r
  let _writeResult := sink line
  (line, none)

/-- The result of a Go `WithAttrs`/`WithGroup` call, distinguishing
"returned the receiver itself" from "allocated a new handler". -/
inductive WithResult (H : Type) : Type where
  | receiver : WithResult H
  | fresh : H → WithResult H

/-- `CLIHandler.withGroupOrAttrs`: copy the handler with one more entry. -/
def CLIHandler.withGroupOrAttrs (h : CLIHandler) (goa : GroupOrAttrs) : CLIHandler :=
  { h with goas := h.goas ++ [goa] }

/-- `CLIHandler.WithAttrs`: empty input returns the receiver. -/
def CLIHandler.withAttrs (h : CLIHandler) (attrs : List Attr) : WithResult CLIHandler :=
  if attrs.isEmpty then .receiver
  else .fresh (h.withGroupOrAttrs ⟨[], attrs⟩)

/-- `CLIHandler.WithGroup`: an empty name returns the receiver. -/
def CLIHandler.withGroup (h : CLIHandler) (name : Str) : WithResult CLIHandler :=
  if name.isEmpty then .receiver
  else .fresh (h.withGroupOrAttrs ⟨name, []⟩)

/-- The handler a caller holds after a `WithAttrs`/`WithGroup` call on
receiver `h`. -/
def WithResult.resolve {H : Type} (h : H) : WithResult H → H
  | .receiver => h
  | .fresh h2 => h2

/-! ## The buffering handler (package `buffering`) -/

namespace Buffering

/-- `buffering.Handler`: the per-scope view, carrying its own attrs and
groups. The embedded shared `*Emitter` (record buffer and mutex) is
modelled by passing the buffer explicitly to the operations that touch it. -/
structure Handler where
  attrs : List Attr
  groups : List Str

/-- `buffering.New()`: a fresh handler with a fresh empty emitter. -/
def Handler.new : Handler := ⟨[], []⟩

/-- `bufferedRecord`: the cloned record, its level, and a snapshot of the
handler's attrs/groups at `Handle` time. The stored `ctx` is only passed
through to the downstream and is not modelled. -/
structure BufferedRecord where
  record : Record
  level : Int
  attrs : List Attr
  groups : List Str

/-- `Handler.Enabled`: `return true` for every level. -/
def Handler.enabled (_h : Handler) (_level : Int) : Bool := true

/-- The `bufferedRecord` that `Handler.Handle` appends for record `r`. -/
def Handler.capture (h : Handler) (r : Record) : BufferedRecord :=
  ⟨r, r.level, h.attrs, h.groups⟩

/-- `Handler.Handle`: clone the record and append it, with this handler's
own attrs/groups, to the shared buffer (cloning is the identity in this
value-level model); always returns nil. -/
def Handler.handleRecord (h : Handler) (records : List BufferedRecord) (r : Record) :
    List BufferedRecord :=
  records ++ [h.capture r]

/-- `Handler.WithAttrs`: always allocates a new handler sharing the emitter,
with copied attrs extended by the new batch (the source has no empty-input
check). -/
def Handler.withAttrs (h : Handler) (attrs : List Attr) : WithResult Handler :=
  .fresh ⟨h.attrs ++ attrs, h.groups⟩

/-- `Handler.WithGroup`: an empty name returns the receiver, otherwise a
new handler with the name appended to the copied groups. -/
def Handler.withGroup (h : Handler) (name : Str) : WithResult Handler :=
  if name.isEmpty then .receiver
  else .fresh ⟨h.attrs, h.groups ++ [name]⟩

/-- A downstream `slog.Handler` as observed by `EmitTo`: a free term
recording the `WithGroup` and `WithAttrs` calls applied to the
caller-supplied base handler. -/
inductive DS : Type where
  | base : DS
  | wGroup : DS → Str → DS
  | wAttrs : DS → List Attr → DS

/-- The behaviour of a (non-nil) downstream handler: whether a derived
handler is enabled for a level, and the result of forwarding a record to a
derived handler (`none` is a nil error). -/
structure Downstream where
  enabled : DS → Int → Bool
  handle : DS → Record → Option GoError

/-- The per-record reconstruction in `Emitter.EmitTo`: one `WithGroup` per
captured group name in order, then — if the captured attrs are non-empty —
a single `WithAttrs` with the whole captured attr list. -/
def reconstruct (br : BufferedRecord) : DS :=
  let current := br.groups.foldl DS.wGroup DS.base
  if br.attrs.isEmpty then current else DS.wAttrs current br.attrs

/-- The replay loop of `Emitter.EmitTo` over the buffered records: returns
the forwarded `(handler, record)` calls in order and the error of the first
failed forward (replay stops there). -/
def emitLoop (d : Downstream) : List BufferedRecord → List (DS × Record) × Option GoError
  | [] => ([], none)
  | br :: rest =>
    let current := reconstruct br
    if d.enabled current br.level then
      match d.handle current br.record with
      | some e => ([], some e)
      | none =>
        let res := emitLoop d rest
        ((current, br.record) :: res.1, res.2)
    else emitLoop d rest

/-- `Emitter.EmitTo`: a nil downstream is a no-op success; otherwise replay
all records in order, stopping at the first failure, and clear the buffer
only on full success. Returns the forwarded calls, the returned error, and
the buffer contents after the call. -/
def emitTo (d? : Option Downstream) (records : List BufferedRecord) :
    List (DS × Record) × Option GoError × List BufferedRecord :=
  match d? with
  | none => ([], none, records)
  | some d =>
    let res := emitLoop d records
    match res.2 with
    | some e => (res.1, some e, records)
    | none => (res.1, none, [])

/-- One scoping call made by a caller deriving buffering handlers. -/
inductive ScopeCall : Type where
  | attrsCall : List Attr → ScopeCall
  | groupCall : Str → ScopeCall

/-- The handler obtained from `h` by one scoping call. -/
def Handler.applyCall (h : Handler) : ScopeCall → Handler
  | .attrsCall as => (h.withAttrs as).resolve h
  | .groupCall g => (h.withGroup g).resolve h

/-- The handler obtained from `h` by a sequence of scoping calls. -/
def Handler.applyCalls (h : Handler) (calls : List ScopeCall) : Handler :=
  calls.foldl Handler.applyCall h

/-- The replay the specification describes: one `WithGroup`/`WithAttrs`
call per scoping call, interleaved in the original call order. -/
def claimedReplay (calls : List ScopeCall) (d : DS) : DS :=
  calls.foldl
    (fun d c =>
      match c with
      | .groupCall g => DS.wGroup d g
      | .attrsCall as => DS.wAttrs d as)
    d

/-- The group names a call sequence opens (non-empty names only, in
order). -/
def groupNamesOf (calls : List ScopeCall) : List Str :=
  calls.filterMap fun c =>
    match c with
    | .groupCall g => if g.isEmpty then none else some g
    | .attrsCall _ => none

/-- The concatenation, in order, of the attr batches of a call sequence. -/
def attrsOf (calls : List ScopeCall) : List Attr :=
  (calls.map fun c =>
    match c with
    | .attrsCall as => as
    | .groupCall _ => []).flatten

end Buffering

/-! ## Concrete instances used to evaluate the model -/

mutual
/-- A group with *no* attribute anywhere inside it (directly or
transitively): it is the zero attribute, or a group-kind attribute all of
whose children are transitively empty. -/
def transitivelyEmpty (a : Attr) : Bool :=
  attrIsZero a ||
    match a with
    | .mk _ (.vgroup children) => transitivelyEmptyList children
    | _ => false

/-- `transitivelyEmpty` over a child list. -/
def transitivelyEmptyList (attrs : List Attr) : Bool :=
  match attrs with
  | [] => true
  | a :: rest => transitivelyEmpty a && transitivelyEmptyList rest
end

/-- A sink whose write always fails. -/
def failingSink : Str → Option GoError := fun _ => some ("write failed".toList)

/-- A `ReplaceAttr` function in the style of the test suite's `drop`
helper, keyed on `"secret"` regardless of the group path: any attribute
keyed `secret` is replaced by the zero attribute. -/
def dropSecret : RepFn := fun _groups a =>
  if a.key == "secret".toList then .mk [] (.vany none) else a

/-- A `ReplaceAttr` function that maps every attribute to the zero
attribute. -/
def dropAllRep : RepFn := fun _groups _a => .mk [] (.vany none)

/-- A custom prefix map differing from the default at the info level. -/
def customPrefixes : Int → Str := fun level =>
  if level = LevelInfo then "X".toList else cliDefaultLevelPrefixes level

/-- A buffered record at a given level with no captured scope. -/
def brAt (level : Int) : Buffering.BufferedRecord :=
  ⟨⟨level, "m".toList, []⟩, level, [], []⟩

/-- A downstream handler enabled from level 0 upward whose forwards all
succeed. -/
def dsAcceptInfo : Buffering.Downstream where
  enabled := fun _ level => decide (0 ≤ level)
  handle := fun _ _ => none

/-- A downstream handler accepting every level whose forward fails exactly
on records at level 4. -/
def dsFailAt4 : Buffering.Downstream where
  enabled := fun _ _ => true
  handle := fun _ r => if r.level == 4 then some ("boom".toList) else none

/-! ## Helper lemmas -/

theorem dropTrailingGroups_append (goas gs : List GroupOrAttrs)
    (hg : ∀ g ∈ gs, ¬ g.group = []) :
    dropTrailingGroups (goas ++ gs) = dropTrailingGroups goas := by
  unfold dropTrailingGroups
  rw [List.reverse_append, List.dropWhile_append]
  have h1 : gs.reverse.dropWhile (fun goa => !goa.group.isEmpty) = [] := by
    rw [List.dropWhile_eq_nil_iff]
    intro g hgmem
    simpa using hg g (List.mem_reverse.mp hgmem)
  rw [h1]
  simp

mutual
theorem appendAttr_transEmpty (uc : Unicode) (a : Attr) (p : Str)
    (h : transitivelyEmpty a = true) : appendAttr uc a p = [] := by
  match a with
  | .mk k v =>
    cases v
    case vgroup children =>
      have hz : attrIsZero (Attr.mk k (Value.vgroup children)) = false := by
        simp [attrIsZero, Attr.key, Attr.value]
      simp only [transitivelyEmpty, hz, Bool.false_or] at h
      rw [appendAttr.eq_def, if_neg (by simp [hz])]
      exact appendAttrList_transEmpty uc children (p ++ k ++ ['.']) h
    all_goals
      simp only [transitivelyEmpty, Bool.or_false] at h
      rw [appendAttr.eq_def, if_pos h]

theorem appendAttrList_transEmpty (uc : Unicode) (attrs : List Attr) (p : Str)
    (h : transitivelyEmptyList attrs = true) : appendAttrList uc attrs p = [] := by
  match attrs, h with
  | [], _ => rw [appendAttrList.eq_def]
  | a :: rest, h =>
    rw [transitivelyEmptyList, Bool.and_eq_true] at h
    rw [appendAttrList.eq_def]
    simp only [appendAttr_transEmpty uc a p h.1, appendAttrList_transEmpty uc rest p h.2,
      List.append_nil]
end

theorem applyCalls_state (h : Buffering.Handler) (calls : List Buffering.ScopeCall) :
    h.applyCalls calls
      = ⟨h.attrs ++ Buffering.attrsOf calls, h.groups ++ Buffering.groupNamesOf calls⟩ := by
  induction calls generalizing h with
  | nil => simp [Buffering.Handler.applyCalls, Buffering.attrsOf, Buffering.groupNamesOf]
  | cons c rest ih =>
    have hstep : Buffering.Handler.applyCalls h (c :: rest)
        = Buffering.Handler.applyCalls (h.applyCall c) rest := rfl
    rw [hstep, ih]
    match c with
    | .attrsCall as =>
      simp [Buffering.Handler.applyCall, Buffering.Handler.withAttrs, WithResult.resolve,
        Buffering.attrsOf, Buffering.groupNamesOf, List.filterMap_cons]
    | .groupCall g =>
      by_cases hg : g = []
      · subst hg
        simp [Buffering.Handler.applyCall, Buffering.Handler.withGroup, WithResult.resolve,
          Buffering.attrsOf, Buffering.groupNamesOf, List.filterMap_cons]
      · simp [Buffering.Handler.applyCall, Buffering.Handler.withGroup, hg,
          WithResult.resolve, Buffering.attrsOf, Buffering.groupNamesOf, List.filterMap_cons]

theorem emitLoop_ok (d : Buffering.Downstream) (records : List Buffering.BufferedRecord)
    (hok : ∀ br ∈ records, d.handle (Buffering.reconstruct br) br.record = none) :
    Buffering.emitLoop d records
      = (records.filterMap fun br =>
          if d.enabled (Buffering.reconstruct br) br.level
          then some (Buffering.reconstruct br, br.record) else none, none) := by
  induction records with
  | nil => rfl
  | cons br rest ih =>
    have hbr := hok br (by simp)
    have ihr := ih fun b hb => hok b (by simp [hb])
    by_cases he : d.enabled (Buffering.reconstruct br) br.level
    · simp [Buffering.emitLoop, he, hbr, ihr, List.filterMap_cons]
    · simp [Buffering.emitLoop, he, ihr, List.filterMap_cons]

theorem emitLoop_err (d : Buffering.Downstream) (records : List Buffering.BufferedRecord)
    (e : GoError) (h : (Buffering.emitLoop d records).2 = some e) :
    ∃ pre br post,
      records = pre ++ br :: post
      ∧ (Buffering.emitLoop d pre).2 = none
      ∧ (Buffering.emitLoop d records).1 = (Buffering.emitLoop d pre).1
      ∧ d.enabled (Buffering.reconstruct br) br.level = true
      ∧ d.handle (Buffering.reconstruct br) br.record = some e := by
  induction records with
  | nil => simp [Buffering.emitLoop] at h
  | cons br rest ih =>
    by_cases he : d.enabled (Buffering.reconstruct br) br.level
    · cases hh : d.handle (Buffering.reconstruct br) br.record with
      | some e2 =>
        have he2 : e2 = e := by simpa [Buffering.emitLoop, he, hh] using h
        subst he2
        exact ⟨[], br, rest, rfl, rfl, by simp [Buffering.emitLoop, he, hh], he, hh⟩
      | none =>
        have h2 : (Buffering.emitLoop d rest).2 = some e := by
          simpa [Buffering.emitLoop, he, hh] using h
        obtain ⟨pre, br2, post, hsplit, hpre, hfwd, hen, hha⟩ := ih h2
        refine ⟨br :: pre, br2, post, by simp [hsplit], ?_, ?_, hen, hha⟩
        · simp [Buffering.emitLoop, he, hh, hpre]
        · simp [Buffering.emitLoop, he, hh, hfwd]
    · have h2 : (Buffering.emitLoop d rest).2 = some e := by
        simpa [Buffering.emitLoop, he] using h
      obtain ⟨pre, br2, post, hsplit, hpre, hfwd, hen, hha⟩ := ih h2
      refine ⟨br :: pre, br2, post, by simp [hsplit], ?_, ?_, hen, hha⟩
      · simp [Buffering.emitLoop, he, hpre]
      · simp [Buffering.emitLoop, he, hfwd]

/-! ## Claim theorems -/

/-- C1 counterexample: with a sink whose write fails, `Handle` still
returns nil, so "Handle returns an error iff the sink write fails" is false
— the write error is discarded by `_, _ = buf.WriteTo(h.w)`. -/
theorem c1_counterexample :
    (CLIHandler.handleResult asciiUnicode (NewCLIHandler none)
        ⟨LevelInfo, "test".toList, []⟩ failingSink).2 = none
    ∧ failingSink (CLIHandler.handleResult asciiUnicode (NewCLIHandler none)
        ⟨LevelInfo, "test".toList, []⟩ failingSink).1 = some ("write failed".toList) :=
  ⟨rfl, rfl⟩

/-- C1 (amended): `CLIHandler.Handle` always returns nil, for every
handler, record, and sink behaviour — sink write failures are discarded,
never surfaced to the caller. -/
theorem c1_handle_always_nil (uc : Unicode) (h : CLIHandler) (r : Record)
    (sink : Str → Option GoError) :
    (CLIHandler.handleResult uc h r sink).2 = none := rfl

/-- C2 counterexample: deriving a buffering handler by `WithAttrs` then
`WithGroup` and replaying a captured record reconstructs the downstream
with the group opened *before* the attribute batch, not in the original
interleaved order the claim states. -/
theorem c2_counterexample :
    Buffering.reconstruct
        ((Buffering.Handler.new.applyCalls
            [.attrsCall [.mk "k".toList (.vstr "v".toList)], .groupCall "g".toList]).capture
          ⟨LevelInfo, "m".toList, []⟩)
      ≠ Buffering.claimedReplay
          [.attrsCall [.mk "k".toList (.vstr "v".toList)], .groupCall "g".toList]
          Buffering.DS.base :=
  fun hcontra => Buffering.DS.noConfusion hcontra

/-- C2 (amended): for every sequence of scoping calls, `EmitTo`
reconstructs the downstream by applying one `WithGroup` per captured
non-empty group name, in capture order, and then — if any attributes were
captured — a single `WithAttrs` carrying all captured attribute batches
concatenated in capture order; the interleaving of attribute batches with
group openings is not preserved. -/
theorem c2_replay_groups_first (calls : List Buffering.ScopeCall) (r : Record) :
    Buffering.reconstruct ((Buffering.Handler.new.applyCalls calls).capture r)
      = if (Buffering.attrsOf calls).isEmpty
          then (Buffering.groupNamesOf calls).foldl Buffering.DS.wGroup Buffering.DS.base
          else Buffering.DS.wAttrs
              ((Buffering.groupNamesOf calls).foldl Buffering.DS.wGroup Buffering.DS.base)
              (Buffering.attrsOf calls) := by
  rw [applyCalls_state]
  simp [Buffering.Handler.capture, Buffering.Handler.new, Buffering.reconstruct]

/-- C3 counterexample: with a replacement function that maps every
attribute keyed `secret` to the zero attribute, a `secret` attribute nested
inside a group-kind value still produces a `secret=` fragment — the
replacement function is not invoked for attributes nested inside group-kind
values. -/
theorem c3_counterexample :
    ("secret=".toList <:+: CLIHandler.handleLine asciiUnicode
        (NewCLIHandler (some { replaceAttr := some dropSecret }))
        ⟨LevelInfo, "test".toList,
          [.mk "g".toList (.vgroup [.mk "secret".toList (.vstr "x".toList)])]⟩)
    ∧ (dropSecret ["g".toList] (.mk "secret".toList (.vstr "x".toList))).key = [] :=
  ⟨by decide, by decide⟩

/-- C3 (amended): the replacement function is invoked for the synthetic
message attribute and for every top-level (stored-scope or record)
attribute — an empty-key result suppresses the message, and a zero-attr
result suppresses the attribute entirely — but attributes nested inside a
group-kind value are rendered by direct recursion without invoking it. -/
theorem c3_replacement_suppression (uc : Unicode) (rep : RepFn) (m : Str)
    (groups : List Str) (p : Str) (a : Attr)
    (hm : (rep [] (Attr.mk messageKey (Value.vstr m))).key = [])
    (hz : rep groups a = Attr.mk [] (Value.vany none)) :
    resolveMessage (some rep) m = []
    ∧ appendAttr uc (applyRep (some rep) groups a) p = []
    ∧ (∀ (k : Str) (children : List Attr),
        appendAttr uc (Attr.mk k (Value.vgroup children)) p
          = appendAttrList uc children (p ++ k ++ ['.'])) := by
  refine ⟨?_, ?_, ?_⟩
  · rw [resolveMessage]
    simp [hm]
  · rw [applyRep, hz, appendAttr.eq_def,
      if_pos (by simp [attrIsZero, Attr.key, Attr.value])]
  · intro k children
    rw [appendAttr.eq_def, if_neg (by simp [attrIsZero, Attr.key, Attr.value])]

/-- Witness for C3 at a concrete replacement function and inputs. -/
theorem c3_witness :
    resolveMessage (some dropAllRep) "test".toList = []
    ∧ appendAttr asciiUnicode
        (applyRep (some dropAllRep) [] (Attr.mk "key".toList (Value.vstr "val".toList))) []
      = [] :=
  ⟨(c3_replacement_suppression asciiUnicode dropAllRep "test".toList [] []
      (Attr.mk "key".toList (Value.vstr "val".toList)) rfl rfl).1,
   (c3_replacement_suppression asciiUnicode dropAllRep "test".toList [] []
      (Attr.mk "key".toList (Value.vstr "val".toList)) rfl rfl).2.1⟩

/-- C4 counterexample: with a caller-configured prefix map sending the info
level to `X`, `Handle` renders glyph `X`, not the built-in default `•` —
the glyph is looked up in the configured map, so "both the glyph and the
color come from the built-in default maps" is false. -/
theorem c4_counterexample :
    CLIHandler.handleLevelPrefix
        (NewCLIHandler (some { prefixOptions := some ⟨2, customPrefixes⟩ }))
        ⟨LevelInfo, "m".toList, []⟩ = "X".toList
    ∧ cliDefaultLevelPrefixes LevelInfo = "•".toList
    ∧ CLIHandler.handleLevelPrefix
        (NewCLIHandler (some { prefixOptions := some ⟨2, customPrefixes⟩ }))
        ⟨LevelInfo, "m".toList, []⟩ ≠ cliDefaultLevelPrefixes LevelInfo :=
  ⟨by decide, by decide, by decide⟩

/-- C4 (amended): `Handle` looks the level color up in the built-in default
color map (ignoring the configured `LevelColors`), while the level glyph is
looked up in the handler's configured prefix map — which coincides with the
built-in prefixes exactly when no prefix options were configured. -/
theorem c4_level_lookup (h : CLIHandler) (r : Record) (opts : CLIHandlerOptions)
    (hp : opts.prefixOptions = none) :
    CLIHandler.handleLevelColor h r = cliDefaultLevelColors r.level
    ∧ CLIHandler.handleLevelPrefix h r = h.levelPrefixes r.level
    ∧ (NewCLIHandler (some opts)).levelPrefixes = cliDefaultLevelPrefixes
    ∧ (NewCLIHandler none).levelPrefixes = cliDefaultLevelPrefixes := by
  refine ⟨rfl, rfl, ?_, rfl⟩
  simp [NewCLIHandler, hp]

/-- Witness for C4 at a concrete handler and record. -/
theorem c4_witness :
    CLIHandler.handleLevelColor (NewCLIHandler none) ⟨LevelWarn, [], []⟩
        = cliDefaultLevelColors LevelWarn
    ∧ (NewCLIHandler (some {})).levelPrefixes = cliDefaultLevelPrefixes :=
  ⟨(c4_level_lookup (NewCLIHandler none) ⟨LevelWarn, [], []⟩ {} rfl).1,
   (c4_level_lookup (NewCLIHandler none) ⟨LevelWarn, [], []⟩ {} rfl).2.2.1⟩

/-- C5: a string needs quoting iff it is empty or contains a whitespace
rune, a double quote, an equals sign, or a non-printable rune; if it needs
quoting, unquoting its rendering recovers it exactly, and otherwise the
rendering is the string itself. -/
theorem c5_quoting_round_trip (uc : Unicode) (s : Str) :
    (needsQuoting uc s = true ↔
      s = [] ∨ ∃ r ∈ s, uc.isSpace r = true ∨ r = '"' ∨ r = '=' ∨ uc.isPrint r = false)
    ∧ (needsQuoting uc s = true → strconvUnquote (appendString uc s true) = some s)
    ∧ (needsQuoting uc s = false → appendString uc s true = s) := by
  refine ⟨?_, ?_, ?_⟩
  · rw [needsQuoting]
    rcases s with _ | ⟨c, cs⟩
    · simp
    · rw [if_neg (by simp), List.any_eq_true]
      constructor
      · rintro ⟨r, hr, hp⟩
        refine Or.inr ⟨r, hr, ?_⟩
        simpa [Bool.or_eq_true, beq_iff_eq, Bool.not_eq_true', or_assoc] using hp
      · rintro (hnil | ⟨r, hr, hp⟩)
        · exact absurd hnil (by simp)
        · exact ⟨r, hr, by
            simpa [Bool.or_eq_true, beq_iff_eq, Bool.not_eq_true', or_assoc] using hp⟩
  · intro h
    rw [appendString, if_pos (by simp [h])]
    exact strconvUnquote_strconvQuote uc s
  · intro h
    rw [appendString, if_neg (by simp [h])]

/-- Witness for C5 at `S = "a b"` (needs quoting) and `S = "ab"` (does
not). -/
theorem c5_witness :
    needsQuoting asciiUnicode "a b".toList = true
    ∧ strconvUnquote (appendString asciiUnicode "a b".toList true) = some "a b".toList
    ∧ needsQuoting asciiUnicode "ab".toList = false
    ∧ appendString asciiUnicode "ab".toList true = "ab".toList :=
  ⟨by decide,
   (c5_quoting_round_trip asciiUnicode "a b".toList).2.1 (by decide),
   by decide,
   (c5_quoting_round_trip asciiUnicode "ab".toList).2.2 (by decide)⟩

/-- C6 counterexample: the buffering handler's `WithAttrs` allocates a new
handler even for an empty attribute list — it does not return the
receiver. -/
theorem c6_counterexample :
    Buffering.Handler.withAttrs ⟨[], []⟩ [] ≠ WithResult.receiver := by
  rw [Buffering.Handler.withAttrs]
  simp

/-- C6 (amended): `CLIHandler.WithAttrs`/`WithGroup` and the buffering
handler's `WithGroup` return the receiver itself on empty input, but the
buffering handler's `WithAttrs` always returns a freshly allocated handler
— with unchanged contents — even for an empty attribute list. -/
theorem c6_noop_identity (hc : CLIHandler) (hb : Buffering.Handler) :
    hc.withAttrs [] = WithResult.receiver
    ∧ hc.withGroup [] = WithResult.receiver
    ∧ hb.withGroup [] = WithResult.receiver
    ∧ hb.withAttrs [] = WithResult.fresh ⟨hb.attrs, hb.groups⟩ := by
  refine ⟨rfl, rfl, rfl, ?_⟩
  rw [Buffering.Handler.withAttrs]
  simp

/-- C7: a group with no attributes inside it contributes nothing to the
line — trailing group entries of the stored scope are dropped when the
record has no attributes of its own, and a transitively empty group-kind
attribute renders nothing. -/
theorem c7_empty_group_suppression :
    (∀ (uc : Unicode) (h : CLIHandler) (r : Record) (gs : List GroupOrAttrs),
        r.attrs = [] → (∀ g ∈ gs, ¬ g.group = []) →
        CLIHandler.handleLine uc { h with goas := h.goas ++ gs } r
          = CLIHandler.handleLine uc h r)
    ∧ (∀ (uc : Unicode) (a : Attr) (p : Str),
        transitivelyEmpty a = true → appendAttr uc a p = []) := by
  constructor
  · intro uc h r gs hr hg
    unfold CLIHandler.handleLine
    simp [hr, dropTrailingGroups_append h.goas gs hg, CLIHandler.handleLevelPrefix,
      CLIHandler.handleLevelColor]
  · exact fun uc a p h => appendAttr_transEmpty uc a p h

/-- Witness for C7: one trailing group entry on a record without attrs, and
an empty group-kind attribute. -/
theorem c7_witness :
    CLIHandler.handleLine asciiUnicode
        { NewCLIHandler none with goas := (NewCLIHandler none).goas ++ [⟨"g".toList, []⟩] }
        ⟨LevelInfo, "m".toList, []⟩
      = CLIHandler.handleLine asciiUnicode (NewCLIHandler none) ⟨LevelInfo, "m".toList, []⟩
    ∧ appendAttr asciiUnicode (Attr.mk "g".toList (Value.vgroup [])) [] = [] :=
  ⟨c7_empty_group_suppression.1 asciiUnicode (NewCLIHandler none) ⟨LevelInfo, "m".toList, []⟩
      [⟨"g".toList, []⟩] rfl (by decide),
   c7_empty_group_suppression.2 asciiUnicode (Attr.mk "g".toList (Value.vgroup [])) []
      (by decide)⟩

/-- C8: the buffering handler reports itself enabled for every level, and a
replay whose forwards all succeed forwards exactly the records whose
reconstructed downstream handler is enabled for their captured level, in
the original buffer order. -/
theorem c8_buffer_order_and_filter (d : Buffering.Downstream)
    (records : List Buffering.BufferedRecord)
    (hok : ∀ br ∈ records, d.handle (Buffering.reconstruct br) br.record = none) :
    (∀ (h : Buffering.Handler) (level : Int), h.enabled level = true)
    ∧ (Buffering.emitLoop d records).1
        = (records.filterMap fun br =>
            if d.enabled (Buffering.reconstruct br) br.level
            then some (Buffering.reconstruct br, br.record) else none)
    ∧ (Buffering.emitLoop d records).2 = none := by
  refine ⟨fun _ _ => rfl, ?_, ?_⟩
  · rw [emitLoop_ok d records hok]
  · rw [emitLoop_ok d records hok]

/-- Witness for C8: three records at levels 0, -4, 4 against a downstream
enabled from level 0, all forwards succeeding. -/
theorem c8_witness :
    (Buffering.emitLoop dsAcceptInfo [brAt 0, brAt (-4), brAt 4]).1
        = ([brAt 0, brAt (-4), brAt 4].filterMap fun br =>
            if dsAcceptInfo.enabled (Buffering.reconstruct br) br.level
            then some (Buffering.reconstruct br, br.record) else none)
    ∧ (Buffering.emitLoop dsAcceptInfo [brAt 0, brAt (-4), brAt 4]).2 = none :=
  ⟨(c8_buffer_order_and_filter dsAcceptInfo [brAt 0, brAt (-4), brAt 4] (by decide)).2.1,
   (c8_buffer_order_and_filter dsAcceptInfo [brAt 0, brAt (-4), brAt 4] (by decide)).2.2⟩

/-- C9: a nil downstream is a no-op success; on full success the buffer is
cleared; on a forwarding failure `EmitTo` returns that failure, the records
forwarded before the failing one stay forwarded, replay stops at the first
failing record, and the buffer is left unchanged. -/
theorem c9_emit_failure :
    (∀ records, Buffering.emitTo none records = ([], none, records))
    ∧ (∀ (d : Buffering.Downstream) records,
        (Buffering.emitTo (some d) records).2.1 = none →
        (Buffering.emitTo (some d) records).2.2 = [])
    ∧ (∀ (d : Buffering.Downstream) records (e : GoError),
        (Buffering.emitTo (some d) records).2.1 = some e →
        (Buffering.emitTo (some d) records).2.2 = records
        ∧ ∃ pre br post,
            records = pre ++ br :: post
            ∧ (Buffering.emitLoop d pre).2 = none
            ∧ (Buffering.emitTo (some d) records).1 = (Buffering.emitLoop d pre).1
            ∧ d.enabled (Buffering.reconstruct br) br.level = true
            ∧ d.handle (Buffering.reconstruct br) br.record = some e) := by
  refine ⟨fun records => rfl, ?_, ?_⟩
  · intro d records h
    unfold Buffering.emitTo at h ⊢
    cases hl : (Buffering.emitLoop d records).2 with
    | none => simp [hl]
    | some e => simp [hl] at h
  · intro d records e h
    unfold Buffering.emitTo at h ⊢
    cases hl : (Buffering.emitLoop d records).2 with
    | none => simp [hl] at h
    | some e2 =>
      simp only [hl] at h ⊢
      have he : e2 = e := by simpa using h
      subst he
      obtain ⟨pre, br, post, hsplit, hpre, hfwd, hen, hha⟩ := emitLoop_err d records e2 hl
      exact ⟨by simp, pre, br, post, hsplit, hpre, by simpa using hfwd, hen, hha⟩

/-- Witness for C9: a nil downstream, and a downstream failing on the
second record. -/
theorem c9_witness :
    Buffering.emitTo none [brAt 0] = ([], none, [brAt 0])
    ∧ (Buffering.emitTo (some dsFailAt4) [brAt 0, brAt 4]).2.2 = [brAt 0, brAt 4] :=
  ⟨c9_emit_failure.1 [brAt 0],
   (c9_emit_failure.2.2 dsFailAt4 [brAt 0, brAt 4] "boom".toList (by decide)).1⟩

/-- C10: only the zero attribute (empty key *and* zero value) is suppressed
outright by `appendAttr`; any other non-group attribute renders a
space-key-equals-value fragment, the empty key classifies as needing
quoting, and an empty-key attribute with a non-zero value renders with its
key quoted as `""` (e.g. `""=val`). -/
theorem c10_zero_attr_suppression (uc : Unicode) (a : Attr) (p : Str)
    (hnz : attrIsZero a = false)
    (hng : ∀ children, a.value ≠ Value.vgroup children)
    (hq : needsQuoting uc "val".toList = false) :
    appendAttr uc (Attr.mk [] (Value.vany none)) p = []
    ∧ appendAttr uc a p
        = ' ' :: (appendString uc (p ++ a.key) true ++ '=' :: appendValue uc a.value true)
    ∧ needsQuoting uc [] = true
    ∧ appendAttr uc (Attr.mk [] (Value.vstr "val".toList)) [] = " \"\"=val".toList := by
  refine ⟨?_, ?_, rfl, ?_⟩
  · rw [appendAttr.eq_def, if_pos (by simp [attrIsZero, Attr.key, Attr.value])]
  · match a, hng with
    | .mk k v, hng =>
      rw [appendAttr.eq_def, if_neg (by simp [hnz])]
      cases v
      case vgroup children => exact absurd rfl (hng children)
      all_goals rfl
  · rw [appendAttr.eq_def, if_neg (by simp [attrIsZero, Attr.key, Attr.value])]
    simp only [List.nil_append]
    rw [show appendValue uc (Value.vstr "val".toList) true
        = appendString uc "val".toList true from rfl]
    rw [show appendString uc "val".toList true = "val".toList from by
      rw [appendString, if_neg (by rw [Bool.true_and, hq]; simp)]]
    rw [show appendString uc [] true = ['"', '"'] from by
      rw [appendString, if_pos (show (true && needsQuoting uc []) = true from rfl)]
      rfl]
    rfl

/-- Witness for C10 at a concrete non-zero attribute. -/
theorem c10_witness :
    appendAttr asciiUnicode (Attr.mk [] (Value.vany none)) [] = []
    ∧ appendAttr asciiUnicode (Attr.mk [] (Value.vstr "val".toList)) [] = " \"\"=val".toList :=
  ⟨(c10_zero_attr_suppression asciiUnicode (Attr.mk "k".toList (Value.vstr "v".toList)) []
      (by decide) (by simp [Attr.value]) (by decide)).1,
   (c10_zero_attr_suppression asciiUnicode (Attr.mk "k".toList (Value.vstr "v".toList)) []
      (by decide) (by simp [Attr.value]) (by decide)).2.2.2⟩

end Slogutils
